import Mathlib

/-!
Verification of the dfu-core download engine (a sans-IO USB DFU / DfuSe
firmware-download state machine) against its natural-language specification.

The Rust sources are shallowly embedded: machine integers (`u16`, `u32`)
become `Nat` with explicit overflow checks against `U16MAX` / `U32MAX`,
fallible steps return `Except Error`, and the driver shell's blocking loop
becomes a fuel-indexed executable function over an oracle of device
GETSTATUS replies.  Emitted USB traffic is recorded as a trace of events.
-/

set_option linter.unusedVariables false
set_option linter.unnecessarySeqFocus false

namespace DfuCore

/-- DFU device states (src/lib.rs, `enum State`). -/
inductive State where
  | appIdle
  | appDetach
  | dfuIdle
  | dfuDnloadSync
  | dfuDnbusy
  | dfuDnloadIdle
  | dfuManifestSync
  | dfuManifest
  | dfuManifestWaitReset
  | dfuUploadIdle
  | dfuError
  | other (code : Nat)
  deriving DecidableEq

/-- DFU status codes (src/lib.rs, `enum Status`). -/
inductive Status where
  | ok
  | errTarget
  | errFile
  | errWrite
  | errErase
  | errCheckErased
  | errProg
  | errVerify
  | errAddress
  | errNotdone
  | errFirmware
  | errVendor
  | errUsbr
  | errPor
  | errUnknown
  | errStalledpkt
  | other (code : Nat)
  deriving DecidableEq

/-- Decoding of the state byte (src/get_status.rs lines 83-96 and
src/lib.rs `impl From<u8> for State`). -/
def stateFromByte (b : Nat) : State :=
  match b with
  | 0 => .appIdle
  | 1 => .appDetach
  | 2 => .dfuIdle
  | 3 => .dfuDnloadSync
  | 4 => .dfuDnbusy
  | 5 => .dfuDnloadIdle
  | 6 => .dfuManifestSync
  | 7 => .dfuManifest
  | 8 => .dfuManifestWaitReset
  | 9 => .dfuUploadIdle
  | 10 => .dfuError
  | code => .other code

/-- Decoding of the status byte (src/get_status.rs lines 61-79). -/
def statusFromByte (b : Nat) : Status :=
  match b with
  | 0x00 => .ok
  | 0x01 => .errTarget
  | 0x02 => .errFile
  | 0x03 => .errWrite
  | 0x04 => .errErase
  | 0x05 => .errCheckErased
  | 0x06 => .errProg
  | 0x07 => .errVerify
  | 0x08 => .errAddress
  | 0x09 => .errNotdone
  | 0x0a => .errFirmware
  | 0x0b => .errVendor
  | 0x0c => .errUsbr
  | 0x0d => .errPor
  | 0x0e => .errUnknown
  | 0x0f => .errStalledpkt
  | code => .other code

/-- src/lib.rs `State::for_status`: rewrite the two sync states to the state
the device is about to enter.  In this source snapshot the function is
defined but never called. -/
def State.for_status (s : State) : State :=
  match s with
  | .dfuManifestSync => .dfuManifest
  | .dfuDnloadSync => .dfuDnbusy
  | s => s

/-- Parsed GETSTATUS reply (src/get_status.rs, `GetStatusMessage`). -/
structure GetStatusMessage where
  status : Status
  poll_timeout : Nat
  state : State
  index : Nat
  deriving DecidableEq

/-- Error taxonomy (src/lib.rs, `enum Error`); only the variants reachable
from the download pipeline are embedded. -/
inductive Error where
  | outOfCapabilities
  | invalidState (got expected : State)
  | bufferTooBig (got expected : Nat)
  | maximumTransferSizeExceeded
  | eraseLimitReached
  | maximumChunksExceeded
  | noSpaceLeft
  | responseTooShort (got expected : Nat)
  deriving DecidableEq

/-- DFU functional descriptor (src/functional_descriptor.rs). -/
structure FunctionalDescriptor where
  can_download : Bool
  can_upload : Bool
  manifestation_tolerant : Bool
  will_detach : Bool
  detach_timeout : Nat
  transfer_size : Nat
  deriving DecidableEq

/-- Decoding part of `GetStatusRecv::chain` (src/get_status.rs lines 52-107):
the message handed to the chained command.  Note that the snapshot decodes
byte 4 directly and does not apply `State::for_status`. -/
def getStatusRecvChain (bytes : List Nat) : Except Error GetStatusMessage :=
  match bytes with
  | b0 :: b1 :: b2 :: b3 :: b4 :: b5 :: _ =>
    .ok { status := statusFromByte b0
          poll_timeout := b1 + 256 * b2 + 65536 * b3
          state := stateFromByte b4
          index := b5 }
  | _ => .error (.responseTooShort bytes.length 6)

/-- DfuSe per-download data (src/download.rs, `DfuseProtocolData`). -/
structure DfuseProtocolData where
  address : Nat
  erased_pos : Nat
  address_set : Bool
  memory_layout : List Nat
  deriving DecidableEq

/-- Protocol data threaded through the download loop (src/download.rs,
`ProtocolData`). -/
inductive ProtocolData where
  | dfu
  | dfuse (d : DfuseProtocolData)
  deriving DecidableEq

/-- Whether the loop protocol data is the DfuSe variant. -/
def ProtocolData.isDfuse : ProtocolData → Bool
  | .dfu => false
  | .dfuse _ => true

/-- The protocol descriptor the engine is constructed from (src/lib.rs,
`DfuProtocol`). -/
inductive DfuProtocol where
  | dfu
  | dfuse (address : Nat) (memory_layout : List Nat)
  deriving DecidableEq

/-- Whether the protocol descriptor is DfuSe. -/
def DfuProtocol.isDfuse : DfuProtocol → Bool
  | .dfu => false
  | .dfuse _ _ => true

/-- The first data block number: 0 for plain DFU, 2 for DfuSe
(src/download.rs lines 30-33). -/
def startBlock : DfuProtocol → Nat
  | .dfu => 0
  | .dfuse _ _ => 2

/-- `u32::MAX`. -/
def U32MAX : Nat := 4294967295

/-- `u16::MAX`. -/
def U16MAX : Nat := 65535

/-- `u32::to_le_bytes` (src/download.rs lines 331-351). -/
def le32 (n : Nat) : List Nat :=
  [n % 256, n / 256 % 256, n / 65536 % 256, n / 16777216 % 256]

/-- Observable event emitted by the engine and its driver shell: the two
control reads, the control writes of the pipeline, USB reset, and the
inter-poll sleep. -/
inductive Ev where
  | getStatus
  | clrStatus
  | dnload (value : Nat) (payload : List Nat)
  | reset
  | sleep (ms : Nat)
  deriving DecidableEq

/-- Download loop state (src/download.rs, `DownloadLoop`). -/
structure DownloadLoop where
  protocol : ProtocolData
  end_pos : Nat
  copied_pos : Nat
  block_num : Nat
  eof : Bool
  deriving DecidableEq

/-- Erase step data (src/download.rs, `ErasePage`). -/
structure ErasePage where
  end_pos : Nat
  copied_pos : Nat
  protocol : DfuseProtocolData
  block_num : Nat
  deriving DecidableEq

/-- Set-address step data (src/download.rs, `SetAddress`). -/
structure SetAddress where
  end_pos : Nat
  copied_pos : Nat
  protocol : DfuseProtocolData
  block_num : Nat
  deriving DecidableEq

/-- Chunk step data (src/download.rs, `DownloadChunk`). -/
structure DownloadChunk where
  end_pos : Nat
  copied_pos : Nat
  block_num : Nat
  protocol : ProtocolData
  deriving DecidableEq

/-- One step of the download loop (src/download.rs, `enum Step`). -/
inductive Step where
  | brk
  | usbReset
  | erase (c : ErasePage)
  | setAddress (c : SetAddress)
  | downloadChunk (c : DownloadChunk)
  deriving DecidableEq

/-- Step selection (src/download.rs, `DownloadLoop::next`, lines 78-127). -/
def DownloadLoop.next (desc : FunctionalDescriptor) (st : DownloadLoop) : Step :=
  if st.eof then
    if !desc.manifestation_tolerant && !desc.will_detach then .usbReset else .brk
  else
    match st.protocol with
    | .dfuse d =>
      if d.erased_pos < st.end_pos then
        .erase { end_pos := st.end_pos, copied_pos := st.copied_pos, protocol := d,
                 block_num := st.block_num }
      else if !d.address_set then
        .setAddress { end_pos := st.end_pos, copied_pos := st.copied_pos, protocol := d,
                      block_num := st.block_num }
      else
        .downloadChunk { end_pos := st.end_pos, copied_pos := st.copied_pos,
                         block_num := st.block_num, protocol := st.protocol }
    | .dfu =>
      .downloadChunk { end_pos := st.end_pos, copied_pos := st.copied_pos,
                       block_num := st.block_num, protocol := st.protocol }

/-- Erase step (src/download.rs, `ErasePage::erase`, lines 150-199).  Returns
the resumed loop state, the (intermediate, target) states of the following
wait, and the emitted DNLOAD write (wValue 0, payload `0x41, LE32(pos)`). -/
def ErasePage.erase (c : ErasePage) :
    Except Error (DownloadLoop × (State × State) × Ev) :=
  match c.protocol.memory_layout with
  | [] => .error .noSpaceLeft
  | page_size :: rest =>
    if U32MAX < c.protocol.erased_pos + page_size then .error .eraseLimitReached
    else
      .ok ({ protocol := .dfuse { c.protocol with
                                  erased_pos := c.protocol.erased_pos + page_size,
                                  memory_layout := rest },
             end_pos := c.end_pos, copied_pos := c.copied_pos,
             block_num := c.block_num, eof := false },
           (State.dfuDnbusy, State.dfuDnloadIdle),
           Ev.dnload 0 (65 :: le32 c.protocol.erased_pos))

/-- Set-address step (src/download.rs, `SetAddress::set_address`, lines
212-250): DNLOAD wValue 0 with payload `0x21, LE32(copied_pos)`. -/
def SetAddress.set_address (c : SetAddress) :
    DownloadLoop × (State × State) × Ev :=
  ({ protocol := .dfuse { c.protocol with address_set := true },
     end_pos := c.end_pos, copied_pos := c.copied_pos,
     block_num := c.block_num, eof := false },
   (State.dfuDnbusy, State.dfuDnloadIdle),
   Ev.dnload 0 (33 :: le32 c.copied_pos))

/-- Chunk step (src/download.rs, `DownloadChunk::download`, lines 264-324).
The sent length is `min (bytes.length) transfer_size`; the wait pair is
selected from `bytes.isEmpty` and manifestation tolerance exactly as in the
source (the Rust code computes the pair before the two overflow checks, but
all parts are pure, so the order is immaterial). -/
def DownloadChunk.download (desc : FunctionalDescriptor) (c : DownloadChunk)
    (bytes : List Nat) : Except Error (DownloadLoop × (State × State) × Ev) :=
  if U32MAX < bytes.length then .error (.bufferTooBig bytes.length U32MAX)
  else if U32MAX < c.copied_pos + min bytes.length desc.transfer_size then
    .error .maximumTransferSizeExceeded
  else if U16MAX < c.block_num + 1 then .error .maximumChunksExceeded
  else
    .ok ({ protocol := c.protocol, end_pos := c.end_pos,
           copied_pos := c.copied_pos + min bytes.length desc.transfer_size,
           block_num := c.block_num + 1, eof := bytes.isEmpty },
         (if bytes.isEmpty then
            if desc.manifestation_tolerant then (State.dfuManifest, State.dfuIdle)
            else (State.dfuManifest, State.dfuManifest)
          else (State.dfuDnbusy, State.dfuDnloadIdle)),
         Ev.dnload c.block_num (bytes.take (min bytes.length desc.transfer_size)))

/-- Construction of the download pipeline's protocol data and end position
(src/lib.rs, `DfuSansIo::download`, lines 174-216). -/
def DfuSansIo.download (override_address : Option Nat) (proto : DfuProtocol)
    (length : Nat) : Except Error (ProtocolData × Nat) :=
  match proto with
  | .dfu => .ok (.dfu, length)
  | .dfuse address memory_layout =>
    let a := override_address.getD address
    if U32MAX < a + length then .error .noSpaceLeft
    else
      .ok (.dfuse { address := a, erased_pos := a, address_set := false,
                    memory_layout := memory_layout },
           a + length)

/-- Pipeline start (src/download.rs, `Start::chain`, lines 18-48): requires
the reported state to be DfuIdle and seeds the chunk loop. -/
def Start.chain (protocol : ProtocolData) (end_pos : Nat)
    (msg : GetStatusMessage) : Except Error DownloadLoop :=
  if msg.state = State.dfuIdle then
    let bc : Nat × Nat :=
      match protocol with
      | .dfu => (0, 0)
      | .dfuse d => (2, d.address)
    .ok { protocol := protocol, end_pos := end_pos, copied_pos := bc.2,
          block_num := bc.1, eof := false }
  else .error (.invalidState msg.state State.dfuIdle)

/-- Conditional status clearing (src/get_status.rs, `ClearStatus::chain`,
lines 117-145): emit CLRSTATUS iff the reported state is DfuError. -/
def ClearStatus.chain (msg : GetStatusMessage) : List Ev :=
  if msg.state = State.dfuError then [Ev.clrStatus] else []

/-- The pre-roll executed by both driver shells before the chunk loop
(src/sync.rs lines 137-146, src/lib.rs lines 205-215): GETSTATUS, the
conditional CLRSTATUS, a second GETSTATUS feeding `Start::chain`. -/
def preRoll (protocol : ProtocolData) (end_pos : Nat)
    (m1 m2 : GetStatusMessage) : List Ev × Except Error DownloadLoop :=
  (Ev.getStatus :: (ClearStatus.chain m1 ++ [Ev.getStatus]),
   Start.chain protocol end_pos m2)

/-- Wait sub-machine of this snapshot's src/get_status.rs (lines 147-237):
a single target `state`, an `end_` flag, and manifest tracking.  Note this
older revision does not carry an intermediate state and its `chain` cannot
fail. -/
structure WaitState where
  state : State
  end_ : Bool
  poll_timeout : Nat
  in_manifest : Bool
  deriving DecidableEq

/-- A step of the snapshot's `WaitState` (src/get_status.rs, `enum Step`,
lines 158-166).  `manifestWaitReset true` carries a pending USB reset. -/
inductive WaitStep where
  | brk
  | manifestWaitReset (withReset : Bool)
  | wait (poll_timeout : Nat)
  deriving DecidableEq

/-- src/get_status.rs, `WaitState::new` (lines 170-179). -/
def WaitState.new (state : State) : WaitState :=
  { state := state, end_ := false, poll_timeout := 0, in_manifest := false }

/-- src/get_status.rs, `WaitState::next` (lines 182-211). -/
def WaitState.next (desc : FunctionalDescriptor) (w : WaitState) : WaitStep :=
  if w.end_ then .brk
  else if w.in_manifest && !desc.manifestation_tolerant then
    .manifestWaitReset (!desc.will_detach)
  else .wait w.poll_timeout

/-- src/get_status.rs, `WaitState::chain` (lines 214-237): record the
reported state; never an error. -/
def WaitState.chain (w : WaitState) (msg : GetStatusMessage) : WaitState :=
  { state := w.state
    end_ := decide (msg.state = w.state)
    poll_timeout := msg.poll_timeout
    in_manifest := decide (msg.state = State.dfuManifest) }

/-- Modelled from the spec: the wait loop of the download run, namely
`WaitState(intermediate, target, k)` of spec section 4.5 composed with the
shells' wait loop (sleep `poll_timeout`, GETSTATUS, feed the reply back;
`Break` on `target`, poll again on `intermediate`, otherwise fail
`InvalidState{got, expected: intermediate}`).  The snapshot's
src/get_status.rs holds an older single-state `WaitState` that no longer
matches its call sites: `WaitState::new` there takes one state while
src/download.rs passes two, and the shells match only the two-variant step.
Returns the emitted events and the unconsumed oracle; `none` means the fuel
or the reply oracle ran out. -/
def waitRun (fuel : Nat) (intermediate target : State) (pt : Nat)
    (oracle : List GetStatusMessage) :
    Option (Except Error (List Ev × List GetStatusMessage)) :=
  match fuel with
  | 0 => none
  | fuel + 1 =>
    match oracle with
    | [] => none
    | m :: rest =>
      if m.state = target then some (.ok ([Ev.sleep pt, Ev.getStatus], rest))
      else if m.state = intermediate then
        match waitRun fuel intermediate target m.poll_timeout rest with
        | none => none
        | some (.error e) => some (.error e)
        | some (.ok (evs, rest')) =>
          some (.ok (Ev.sleep pt :: Ev.getStatus :: evs, rest'))
      else some (.error (.invalidState m.state intermediate))

/-- The byte stream handed to the shell: the remaining firmware bytes plus a
schedule of read sizes, so every claim quantifying over partial reads ranges
over all schedules.  Reading returns at least one byte while data remains
(`Ok(0)` from `std::io::Read` means end of stream) and never more than
requested. -/
structure Rd where
  data : List Nat
  sched : List Nat
  deriving DecidableEq

/-- One `reader.read(dst)` call with capacity `cap`. -/
def Rd.read (rd : Rd) (cap : Nat) : List Nat × Rd :=
  match rd.data with
  | [] => ([], rd)
  | _ =>
    let s := match rd.sched with | [] => cap | s :: _ => s + 1
    let n := min cap (min s rd.data.length)
    (rd.data.take n, { data := rd.data.drop n, sched := rd.sched.tail })

/-- Fill loop of `Buffer::fill_buf` (src/sync.rs lines 21-32 and
src/asynchronous.rs lines 91-102): read until the buffer holds `size` bytes
or a read returns 0.  `gas` bounds the iterations; each successful read
adds at least one byte, so `size - buf.length` suffices. -/
def fillBufAux (gas : Nat) (buf : List Nat) (size : Nat) (rd : Rd) :
    List Nat × Rd :=
  match gas with
  | 0 => (buf, rd)
  | gas + 1 =>
    if buf.length < size then
      let c := rd.read (size - buf.length)
      if c.1.isEmpty then (buf, c.2)
      else fillBufAux gas (buf ++ c.1) size c.2
    else (buf, rd)

/-- `Buffer::fill_buf`. -/
def fillBuf (buf : List Nat) (size : Nat) (rd : Rd) : List Nat × Rd :=
  fillBufAux (size - buf.length) buf size rd

/-- `Buffer::consume` (src/sync.rs lines 34-41). -/
def consume (buf : List Nat) (amt : Nat) : List Nat :=
  if buf.length ≤ amt then [] else buf.drop amt

/-- Prepend events to the trace of a successful run. -/
def mapOk (x : Option (Except Error (List Ev)))
    (pre : List Ev) : Option (Except Error (List Ev)) :=
  match x with
  | some (.ok evs) => some (.ok (pre ++ evs))
  | some (.error e) => some (.error e)
  | none => none

/-- The chunk loop of both driver shells (src/sync.rs lines 148-177,
src/asynchronous.rs lines 217-243) driving `DownloadLoop::next`: erase /
set-address / chunk steps each execute their control write, then run the
wait loop on the device-reply oracle.  `none` means fuel or the oracle ran
out before the loop finished. -/
def loopRun (desc : FunctionalDescriptor) (fuel : Nat) (st : DownloadLoop)
    (buf : List Nat) (rd : Rd) (oracle : List GetStatusMessage) :
    Option (Except Error (List Ev)) :=
  match fuel with
  | 0 => none
  | fuel + 1 =>
    match DownloadLoop.next desc st with
    | .brk => some (.ok [])
    | .usbReset => some (.ok [Ev.reset])
    | .erase c =>
      match ErasePage.erase c with
      | .error e => some (.error e)
      | .ok (st', pair, ev) =>
        match waitRun (fuel + 1) pair.1 pair.2 0 oracle with
        | none => none
        | some (.error e) => some (.error e)
        | some (.ok (wevs, oracle')) =>
          mapOk (loopRun desc fuel st' buf rd oracle') (ev :: wevs)
    | .setAddress c =>
      match SetAddress.set_address c with
      | (st', pair, ev) =>
        match waitRun (fuel + 1) pair.1 pair.2 0 oracle with
        | none => none
        | some (.error e) => some (.error e)
        | some (.ok (wevs, oracle')) =>
          mapOk (loopRun desc fuel st' buf rd oracle') (ev :: wevs)
    | .downloadChunk c =>
      match fillBuf buf desc.transfer_size rd with
      | (bytes, rd') =>
        match DownloadChunk.download desc c bytes with
        | .error e => some (.error e)
        | .ok (st', pair, ev) =>
          match waitRun (fuel + 1) pair.1 pair.2 0 oracle with
          | none => none
          | some (.error e) => some (.error e)
          | some (.ok (wevs, oracle')) =>
            mapOk (loopRun desc fuel st'
                    (consume bytes (min bytes.length desc.transfer_size)) rd' oracle')
              (ev :: wevs)

/-- A whole download invocation of the driver shells (src/sync.rs
`DfuSync::download`, lines 112-180; src/asynchronous.rs `DfuASync::download`,
lines 175-246, which is structurally identical): pre-fill the stream buffer
and return immediately when it is empty, otherwise build the pipeline, run
the pre-roll, and drive the chunk loop. -/
def run (desc : FunctionalDescriptor) (override_address : Option Nat)
    (proto : DfuProtocol) (length : Nat) (rd : Rd)
    (oracle : List GetStatusMessage) (fuel : Nat) :
    Option (Except Error (List Ev)) :=
  let fb := fillBuf [] desc.transfer_size rd
  if fb.1.isEmpty then some (.ok [])
  else
    match DfuSansIo.download override_address proto length with
    | .error e => some (.error e)
    | .ok (protocol, end_pos) =>
      match oracle with
      | [] => none
      | m1 :: oracle =>
        match oracle with
        | [] => none
        | m2 :: oracle =>
          let pr := preRoll protocol end_pos m1 m2
          match pr.2 with
          | .error e => some (.error e)
          | .ok dl => mapOk (loopRun desc fuel dl fb.1 fb.2 oracle) pr.1

/-- The DNLOAD writes of a trace, as (wValue, payload) pairs. -/
def dnloads (evs : List Ev) : List (Nat × List Nat) :=
  evs.filterMap fun ev =>
    match ev with
    | .dnload v p => some (v, p)
    | _ => none

/-- Concatenation of the payloads of a list of DNLOAD transfers. -/
def concatPayloads (l : List (Nat × List Nat)) : List Nat :=
  (l.map Prod.snd).flatten

/-- The syntactic command-packet criterion used by claim C1: wValue 0 and a
payload starting with 0x21 or 0x41. -/
def isCmdPacket (x : Nat × List Nat) : Bool :=
  decide (x.1 = 0) &&
    (decide (x.2.head? = some 33) || decide (x.2.head? = some 65))

/-- A non-empty data transfer, with the command-packet exclusion applied
only under DfuSe (amended claim C1). -/
def dataTransfer (dfuse : Bool) (x : Nat × List Nat) : Bool :=
  !x.2.isEmpty && !(dfuse && isCmdPacket x)

/-- A chunk-step transfer: under DfuSe these are exactly the transfers with
a non-zero wValue; under plain DFU every DNLOAD is a chunk. -/
def chunkTransfer (dfuse : Bool) (x : Nat × List Nat) : Bool :=
  if dfuse then decide (x.1 ≠ 0) else true

/-- Number of USB resets in a trace. -/
def resetCount (evs : List Ev) : Nat :=
  (evs.filter fun ev => match ev with | .reset => true | _ => false).length

/-- Claim C4's wording of the pre-roll: GETSTATUS; CLRSTATUS iff the first
reply's state is DfuError; GETSTATUS; require DfuIdle, seeding the chunk
loop with block 0 / position 0 (plain DFU) or block 2 / position = address
(DfuSe); otherwise fail InvalidState. -/
def preRollClaim (protocol : ProtocolData) (end_pos : Nat)
    (m1 m2 : GetStatusMessage) : List Ev × Except Error DownloadLoop :=
  ((if m1.state = State.dfuError then
      [Ev.getStatus, Ev.clrStatus, Ev.getStatus]
    else [Ev.getStatus, Ev.getStatus]),
   if m2.state = State.dfuIdle then
     .ok { protocol := protocol, end_pos := end_pos,
           copied_pos := match protocol with | .dfu => 0 | .dfuse d => d.address,
           block_num := match protocol with | .dfu => 0 | .dfuse _ => 2,
           eof := false }
   else .error (.invalidState m2.state State.dfuIdle))

/-- Claim C7's wording of the erase step: NoSpaceLeft when the layout cursor
is empty; with head page size `p`, EraseLimitReached when `e + p` overflows
u32; otherwise a DNLOAD with wValue 0 and the 5-byte payload
`0x41, LE32(e)`, with the resume state advancing `erased_pos` to `e + p`,
the cursor to the tail, and everything else unchanged. -/
def eraseClaim (c : ErasePage) :
    Except Error (DownloadLoop × (State × State) × Ev) :=
  match c.protocol.memory_layout.head? with
  | none => .error .noSpaceLeft
  | some p =>
    if c.protocol.erased_pos + p ≤ U32MAX then
      .ok ({ protocol := .dfuse { address := c.protocol.address,
                                  erased_pos := c.protocol.erased_pos + p,
                                  address_set := c.protocol.address_set,
                                  memory_layout := c.protocol.memory_layout.tail },
             end_pos := c.end_pos, copied_pos := c.copied_pos,
             block_num := c.block_num, eof := false },
           (State.dfuDnbusy, State.dfuDnloadIdle),
           Ev.dnload 0 ([65] ++ le32 c.protocol.erased_pos))
    else .error .eraseLimitReached

/-- Claim C8's wording of the chunk step: BufferTooBig iff more than
`u32::MAX` bytes are handed in; the DNLOAD carries wValue `block_num` and
the first `min(len, transfer_size)` bytes; `copied_pos` grows by that
length (MaximumTransferSizeExceeded on u32 overflow) and `block_num` by one
(MaximumChunksExceeded on u16 overflow); `eof` iff the input is empty; the
following wait uses (DfuManifest, DfuIdle) at end of stream when
manifestation tolerant, (DfuManifest, DfuManifest) at end of stream
otherwise, and (DfuDnbusy, DfuDnloadIdle) for data. -/
def downloadChunkClaim (desc : FunctionalDescriptor) (c : DownloadChunk)
    (bytes : List Nat) : Except Error (DownloadLoop × (State × State) × Ev) :=
  if bytes.length ≤ U32MAX then
    let len := min bytes.length desc.transfer_size
    if c.copied_pos + len ≤ U32MAX then
      if c.block_num + 1 ≤ U16MAX then
        .ok ({ protocol := c.protocol, end_pos := c.end_pos,
               copied_pos := c.copied_pos + len, block_num := c.block_num + 1,
               eof := bytes.isEmpty },
             (if bytes.isEmpty then
                (State.dfuManifest,
                 if desc.manifestation_tolerant then State.dfuIdle
                 else State.dfuManifest)
              else (State.dfuDnbusy, State.dfuDnloadIdle)),
             Ev.dnload c.block_num (bytes.take len))
      else .error .maximumChunksExceeded
    else .error .maximumTransferSizeExceeded
  else .error (.bufferTooBig bytes.length U32MAX)

/-- Bundle of trace facts established for every successful chunk loop whose
entry state has `eof = false`, protocol kind `b` and next block `bn`:
byte fidelity, consecutive block numbers, the transfer-size bound, a single
zero-length DNLOAD, the reset discipline, and (DfuSe) that wValue 1 is
never used. -/
def LoopOk (desc : FunctionalDescriptor) (b : Bool) (bn : Nat) (buf : List Nat)
    (rd : Rd) (evs : List Ev) : Prop :=
  concatPayloads ((dnloads evs).filter (dataTransfer b)) = buf ++ rd.data ∧
  ((dnloads evs).filter (chunkTransfer b)).map Prod.fst
    = List.range' bn ((dnloads evs).filter (chunkTransfer b)).length ∧
  (∀ x ∈ (dnloads evs).filter (chunkTransfer b), x.2.length ≤ desc.transfer_size) ∧
  ((dnloads evs).filter (fun x => x.2.isEmpty)).length = 1 ∧
  resetCount evs = (if !desc.manifestation_tolerant && !desc.will_detach then 1 else 0) ∧
  (b = true → ∀ x ∈ dnloads evs, x.1 ≠ 1)

/-- Concrete manifestation-tolerant descriptor used by the witnesses. -/
def descW : FunctionalDescriptor :=
  { can_download := true, can_upload := false, manifestation_tolerant := true,
    will_detach := false, detach_timeout := 8, transfer_size := 6 }

/-- Concrete non-tolerant, non-detaching descriptor used by the
counterexamples. -/
def descN : FunctionalDescriptor :=
  { can_download := true, can_upload := false, manifestation_tolerant := false,
    will_detach := false, detach_timeout := 8, transfer_size := 6 }

/-- A device reply reporting state `s` with a 10 ms poll timeout. -/
def msgW (s : State) : GetStatusMessage :=
  { status := Status.ok, poll_timeout := 10, state := s, index := 0 }

/-- Concrete one-byte firmware stream whose single byte is 0x41. -/
def rdW : Rd := { data := [65], sched := [] }

/-- Device replies for the concrete one-chunk plain-DFU run. -/
def oracleW : List GetStatusMessage :=
  [msgW State.dfuIdle, msgW State.dfuIdle, msgW State.dfuDnloadIdle,
   msgW State.dfuIdle]

/-- The trace of the concrete one-chunk plain-DFU run. -/
def trW : List Ev :=
  [Ev.getStatus, Ev.getStatus, Ev.dnload 0 [65], Ev.sleep 0, Ev.getStatus,
   Ev.dnload 1 [], Ev.sleep 0, Ev.getStatus]

/-- Device replies for the concrete non-tolerant plain-DFU run. -/
def oracleN : List GetStatusMessage :=
  [msgW State.dfuIdle, msgW State.dfuIdle, msgW State.dfuDnloadIdle,
   msgW State.dfuManifest]

/-- The trace of the concrete non-tolerant plain-DFU run, ending in a USB
reset. -/
def trN : List Ev :=
  [Ev.getStatus, Ev.getStatus, Ev.dnload 0 [65], Ev.sleep 0, Ev.getStatus,
   Ev.dnload 1 [], Ev.sleep 0, Ev.getStatus, Ev.reset]

@[simp]
theorem dnloads_nil : dnloads [] = [] := rfl

@[simp]
theorem dnloads_cons (ev : Ev) (evs : List Ev) :
    dnloads (ev :: evs) =
      (match ev with | .dnload v p => [(v, p)] | _ => []) ++ dnloads evs := by
  cases ev <;> simp [dnloads]

@[simp]
theorem dnloads_append (a b : List Ev) :
    dnloads (a ++ b) = dnloads a ++ dnloads b := by
  simp [dnloads]

@[simp]
theorem resetCount_nil : resetCount [] = 0 := rfl

@[simp]
theorem resetCount_cons (ev : Ev) (evs : List Ev) :
    resetCount (ev :: evs) =
      (match ev with | .reset => 1 | _ => 0) + resetCount evs := by
  cases ev <;> simp [resetCount] <;> omega

theorem concatPayloads_append (a b : List (Nat × List Nat)) :
    concatPayloads (a ++ b) = concatPayloads a ++ concatPayloads b := by
  simp [concatPayloads]

@[simp]
theorem resetCount_append (a b : List Ev) :
    resetCount (a ++ b) = resetCount a + resetCount b := by
  simp [resetCount]

@[simp]
theorem concatPayloads_nil : concatPayloads [] = [] := rfl

@[simp]
theorem concatPayloads_cons (x : Nat × List Nat) (l : List (Nat × List Nat)) :
    concatPayloads (x :: l) = x.2 ++ concatPayloads l := by
  simp [concatPayloads]

theorem read_conservation (rd : Rd) (cap : Nat) :
    (rd.read cap).1 ++ (rd.read cap).2.data = rd.data := by
  rcases rd with ⟨data, sched⟩
  cases data with
  | nil => simp [Rd.read]
  | cons a l => simp [Rd.read]

theorem read_length (rd : Rd) (cap : Nat) : (rd.read cap).1.length ≤ cap := by
  rcases rd with ⟨data, sched⟩
  cases data with
  | nil => simp [Rd.read]
  | cons a l =>
    simp only [Rd.read, List.length_take]
    omega

theorem read_ne_nil (rd : Rd) (cap : Nat) (hc : 1 ≤ cap) (hd : rd.data ≠ []) :
    (rd.read cap).1 ≠ [] := by
  rcases rd with ⟨data, sched⟩
  cases data with
  | nil => simp at hd
  | cons a l =>
    simp only [Rd.read, ne_eq, List.take_eq_nil_iff]
    cases sched <;> simp <;> omega

theorem read_data_nil (rd : Rd) (cap : Nat) (h : rd.data = []) :
    rd.read cap = ([], rd) := by
  rcases rd with ⟨data, sched⟩
  simp at h
  subst h
  simp [Rd.read]

theorem fillBufAux_conservation (size : Nat) :
    ∀ (gas : Nat) (buf : List Nat) (rd : Rd),
      (fillBufAux gas buf size rd).1 ++ (fillBufAux gas buf size rd).2.data
        = buf ++ rd.data := by
  intro gas
  induction gas with
  | zero => intro buf rd; simp [fillBufAux]
  | succ gas ih =>
    intro buf rd
    simp only [fillBufAux]
    split
    · split
      · rename_i hlt hempty
        have := read_conservation rd (size - buf.length)
        simp only [List.isEmpty_iff] at hempty
        rw [hempty] at this
        simpa using this
      · rename_i hlt hempty
        rw [ih]
        have := read_conservation rd (size - buf.length)
        rw [List.append_assoc, this]
    · rfl

theorem fillBufAux_length (size : Nat) :
    ∀ (gas : Nat) (buf : List Nat) (rd : Rd), buf.length ≤ size →
      (fillBufAux gas buf size rd).1.length ≤ size := by
  intro gas
  induction gas with
  | zero => intro buf rd h; simpa [fillBufAux] using h
  | succ gas ih =>
    intro buf rd h
    simp only [fillBufAux]
    split
    · split
      · simpa using h
      · apply ih
        have := read_length rd (size - buf.length)
        simp only [List.length_append]
        omega
    · simpa using h

theorem fillBufAux_mono (size : Nat) :
    ∀ (gas : Nat) (buf : List Nat) (rd : Rd),
      ∃ t, (fillBufAux gas buf size rd).1 = buf ++ t := by
  intro gas
  induction gas with
  | zero => intro buf rd; exact ⟨[], by simp [fillBufAux]⟩
  | succ gas ih =>
    intro buf rd
    simp only [fillBufAux]
    split
    · split
      · exact ⟨[], by simp⟩
      · obtain ⟨t, ht⟩ := ih (buf ++ (rd.read (size - buf.length)).1)
          (rd.read (size - buf.length)).2
        exact ⟨(rd.read (size - buf.length)).1 ++ t, by rw [ht, List.append_assoc]⟩
    · exact ⟨[], by simp⟩

theorem fillBufAux_data_nil (size : Nat) :
    ∀ (gas : Nat) (buf : List Nat) (rd : Rd), rd.data = [] →
      fillBufAux gas buf size rd = (buf, rd) := by
  intro gas
  induction gas with
  | zero => intro buf rd h; simp [fillBufAux]
  | succ gas ih =>
    intro buf rd h
    simp only [fillBufAux]
    split
    · rw [read_data_nil rd _ h]
      simp
    · rfl

theorem fillBuf_conservation (buf : List Nat) (size : Nat) (rd : Rd) :
    (fillBuf buf size rd).1 ++ (fillBuf buf size rd).2.data = buf ++ rd.data :=
  fillBufAux_conservation size _ buf rd

theorem fillBuf_length (buf : List Nat) (size : Nat) (rd : Rd)
    (h : buf.length ≤ size) : (fillBuf buf size rd).1.length ≤ size :=
  fillBufAux_length size _ buf rd h

theorem fillBuf_data_nil (buf : List Nat) (size : Nat) (rd : Rd)
    (h : rd.data = []) : fillBuf buf size rd = (buf, rd) :=
  fillBufAux_data_nil size _ buf rd h

theorem fillBuf_ne_nil (size : Nat) (rd : Rd) (hs : 1 ≤ size)
    (hd : rd.data ≠ []) : (fillBuf [] size rd).1 ≠ [] := by
  have hgas : size - ([] : List Nat).length = size := by simp
  rcases size with _ | size
  · omega
  · simp only [fillBuf, hgas]
    simp only [fillBufAux]
    have hlt : ([] : List Nat).length < size + 1 := by simp
    rw [if_pos hlt]
    have hne := read_ne_nil rd (size + 1 - ([] : List Nat).length) (by simp) hd
    split
    · rename_i hempty
      simp only [List.isEmpty_iff] at hempty
      exact absurd hempty hne
    · obtain ⟨t, ht⟩ := fillBufAux_mono (size + 1) size
        ([] ++ (rd.read (size + 1 - ([] : List Nat).length)).1)
        (rd.read (size + 1 - ([] : List Nat).length)).2
      rw [ht]
      simp only [List.nil_append]
      intro hcon
      exact hne (by simpa using List.append_eq_nil.mp hcon |>.1)

theorem fillBuf_empty (buf : List Nat) (size : Nat) (rd : Rd) (hs : 1 ≤ size)
    (h : (fillBuf buf size rd).1 = []) : buf = [] ∧ rd.data = [] := by
  obtain ⟨t, ht⟩ := fillBufAux_mono size (size - buf.length) buf rd
  have hbuf : buf = [] := by
    rw [fillBuf] at h
    rw [h] at ht
    exact (List.append_eq_nil.mp ht.symm).1
  subst hbuf
  constructor
  · rfl
  · by_contra hd
    exact fillBuf_ne_nil size rd hs hd h

theorem consume_full (l : List Nat) (amt : Nat) (h : l.length ≤ amt) :
    consume l amt = [] := by
  simp [consume, h]

theorem waitRun_ok (f : Nat) :
    ∀ (i t : State) (pt : Nat) (orc : List GetStatusMessage)
      (evs : List Ev) (orc' : List GetStatusMessage),
      waitRun f i t pt orc = some (.ok (evs, orc')) →
      dnloads evs = [] ∧ resetCount evs = 0 := by
  induction f with
  | zero => intro i t pt orc evs orc' h; simp [waitRun] at h
  | succ f ih =>
    intro i t pt orc evs orc' h
    match orc with
    | [] => simp [waitRun] at h
    | m :: rest =>
      simp only [waitRun] at h
      by_cases h1 : m.state = t
      · rw [if_pos h1] at h
        simp only [Option.some.injEq, Except.ok.injEq, Prod.mk.injEq] at h
        obtain ⟨he, _⟩ := h
        subst he
        constructor <;> simp [dnloads, resetCount]
      · rw [if_neg h1] at h
        by_cases h2 : m.state = i
        · rw [if_pos h2] at h
          rcases hw : waitRun f i t m.poll_timeout rest with _ | we
          · rw [hw] at h; simp at h
          · rw [hw] at h
            rcases we with e | ⟨evs0, rest0⟩
            · simp at h
            · simp only [Option.some.injEq, Except.ok.injEq, Prod.mk.injEq] at h
              obtain ⟨he, _⟩ := h
              subst he
              obtain ⟨hd, hr⟩ := ih i t m.poll_timeout rest evs0 rest0 hw
              constructor
              · simp [dnloads] at hd ⊢
                exact hd
              · simp [resetCount] at hr ⊢
                exact hr
        · rw [if_neg h2] at h
          simp at h

theorem loopRun_eof (desc : FunctionalDescriptor) (fuel : Nat)
    (st : DownloadLoop) (buf : List Nat) (rd : Rd)
    (oracle : List GetStatusMessage) (h : st.eof = true) :
    loopRun desc (fuel + 1) st buf rd oracle =
      some (.ok (if !desc.manifestation_tolerant && !desc.will_detach
                 then [Ev.reset] else [])) := by
  cases hc : (!desc.manifestation_tolerant && !desc.will_detach) with
  | false => simp [loopRun, DownloadLoop.next, h, hc]
  | true => simp [loopRun, DownloadLoop.next, h, hc]

theorem chunk_arm (desc : FunctionalDescriptor) (hTs : 1 ≤ desc.transfer_size)
    (fuel : Nat)
    (ih : ∀ (st : DownloadLoop) (buf : List Nat) (rd : Rd)
        (oracle : List GetStatusMessage) (evs : List Ev) (b : Bool),
        loopRun desc fuel st buf rd oracle = some (.ok evs) →
        st.eof = false → buf.length ≤ desc.transfer_size →
        st.protocol.isDfuse = b → (b = true → 2 ≤ st.block_num) →
        LoopOk desc b st.block_num buf rd evs)
    (st : DownloadLoop) (buf : List Nat) (rd : Rd)
    (oracle : List GetStatusMessage) (evs : List Ev) (b : Bool)
    (hnext : DownloadLoop.next desc st = .downloadChunk
      { end_pos := st.end_pos, copied_pos := st.copied_pos,
        block_num := st.block_num, protocol := st.protocol })
    (h : loopRun desc (fuel + 1) st buf rd oracle = some (.ok evs))
    (hBuf : buf.length ≤ desc.transfer_size)
    (hpb : st.protocol.isDfuse = b)
    (hBn : b = true → 2 ≤ st.block_num) :
    LoopOk desc b st.block_num buf rd evs := by
  rcases hfb : fillBuf buf desc.transfer_size rd with ⟨bytes, rd'⟩
  simp only [loopRun, hnext, hfb] at h
  have hlen : bytes.length ≤ desc.transfer_size := by
    have := fillBuf_length buf desc.transfer_size rd hBuf
    rw [hfb] at this
    exact this
  have hcons : bytes ++ rd'.data = buf ++ rd.data := by
    have := fillBuf_conservation buf desc.transfer_size rd
    rw [hfb] at this
    exact this
  have hmin : min bytes.length desc.transfer_size = bytes.length :=
    Nat.min_eq_left hlen
  split at h
  · simp at h
  rename_i st' pair ev hdl
  split at h
  · simp at h
  · simp at h
  rename_i wevs oracle' hw
  rcases hr : loopRun desc fuel st'
      (consume bytes (min bytes.length desc.transfer_size)) rd' oracle'
    with _ | re <;> rw [hr] at h
  · simp [mapOk] at h
  rcases re with e | evs'
  · simp [mapOk] at h
  simp only [mapOk, Option.some.injEq, Except.ok.injEq] at h
  subst h
  rw [DownloadChunk.download] at hdl
  split at hdl
  · simp at hdl
  split at hdl
  · simp at hdl
  split at hdl
  · simp at hdl
  simp only [Except.ok.injEq, Prod.mk.injEq] at hdl
  obtain ⟨hst', hpair, hev⟩ := hdl
  obtain ⟨hwd, hwr⟩ := waitRun_ok (fuel + 1) pair.1 pair.2 0 oracle wevs oracle' hw
  rw [hmin, List.take_length] at hev
  by_cases hbe : bytes = []
  · -- end-of-stream chunk: zero-length DNLOAD, then reset or break
    subst hbe
    obtain ⟨hbufnil, hdatanil⟩ := fillBuf_empty buf desc.transfer_size rd hTs
      (by rw [hfb])
    have hst'eof : st'.eof = true := by
      rw [← hst']
      simp
    rcases fuel with _ | f
    · simp [loopRun] at hr
    rw [loopRun_eof desc f st' _ rd' oracle' hst'eof] at hr
    simp only [Option.some.injEq, Except.ok.injEq] at hr
    subst hr
    subst hbufnil
    have hds : dnloads ((ev :: wevs) ++
        (if (!desc.manifestation_tolerant && !desc.will_detach) = true
         then [Ev.reset] else [])) = [(st.block_num, [])] := by
      cases hc : (!desc.manifestation_tolerant && !desc.will_detach) <;>
        simp [hc, ← hev, hwd]
    have hrc : resetCount ((ev :: wevs) ++
        (if (!desc.manifestation_tolerant && !desc.will_detach) = true
         then [Ev.reset] else [])) =
        (if (!desc.manifestation_tolerant && !desc.will_detach) = true
         then 1 else 0) := by
      cases hc : (!desc.manifestation_tolerant && !desc.will_detach) <;>
        simp [hc, ← hev, hwr]
    refine ⟨?_, ?_, ?_, ?_, ?_, ?_⟩
    · rw [hds]
      simp [dataTransfer, hdatanil]
    · rw [hds]
      cases b
      · simp [chunkTransfer, List.range']
      · have h2 := hBn rfl
        have hne : st.block_num ≠ 0 := by omega
        simp [chunkTransfer, hne, List.range']
    · intro x hx
      rw [hds] at hx
      rcases List.mem_filter.mp hx with ⟨hm, _⟩
      simp only [List.mem_singleton] at hm
      subst hm
      simp
    · rw [hds]
      simp
    · exact hrc
    · intro hdf x hx
      rw [hds] at hx
      simp only [List.mem_singleton] at hx
      subst hx
      have h2 := hBn hdf
      simp
      omega
  · -- a data chunk followed by the recursive tail
    have hbe' : bytes.isEmpty = false := by
      simp [List.isEmpty_iff, hbe]
    have hst'eof : st'.eof = false := by
      rw [← hst']
      simp [hbe']
    have hst'proto : st'.protocol = st.protocol := by
      rw [← hst']
    have hst'bn : st'.block_num = st.block_num + 1 := by
      rw [← hst']
    have hihres := ih st' (consume bytes (min bytes.length desc.transfer_size))
      rd' oracle' evs' b hr hst'eof
      (by rw [hmin, consume_full bytes bytes.length (le_refl _)]; simp)
      (by rw [hst'proto]; exact hpb)
      (by intro hdf; rw [hst'bn]; have := hBn hdf; omega)
    rw [hmin, consume_full bytes bytes.length (le_refl _)] at hihres
    rw [hst'bn] at hihres
    obtain ⟨ih1, ih2, ih3, ih4, ih5, ih6⟩ := hihres
    have hck : chunkTransfer b (st.block_num, bytes) = true := by
      cases b
      · simp [chunkTransfer]
      · have h2 : 2 ≤ st.block_num := hBn rfl
        simp [chunkTransfer]
        omega
    have hdt : dataTransfer b (st.block_num, bytes) = true := by
      cases b
      · simp [dataTransfer, hbe']
      · have h2 : 2 ≤ st.block_num := hBn rfl
        simp [dataTransfer, hbe', isCmdPacket]
        omega
    have hsplit : dnloads ((ev :: wevs) ++ evs')
        = (st.block_num, bytes) :: dnloads evs' := by
      simp [← hev, hwd]
    have hrsplit : resetCount ((ev :: wevs) ++ evs') = resetCount evs' := by
      simp [← hev, hwr]
    refine ⟨?_, ?_, ?_, ?_, ?_, ?_⟩
    · rw [hsplit, List.filter_cons, if_pos hdt, concatPayloads_cons, ih1]
      exact hcons
    · rw [hsplit, List.filter_cons, if_pos hck]
      simp only [List.map_cons, List.length_cons, ih2]
      rfl
    · intro x hx
      rw [hsplit, List.filter_cons, if_pos hck] at hx
      rcases List.mem_cons.mp hx with hx | hx
      · subst hx
        exact hlen
      · exact ih3 x hx
    · rw [hsplit, List.filter_cons, if_neg (by simp [hbe'])]
      exact ih4
    · rw [hrsplit, ih5]
    · intro hdf x hx
      rw [hsplit] at hx
      rcases List.mem_cons.mp hx with hx | hx
      · subst hx
        have h2 := hBn hdf
        simp only [ne_eq]
        omega
      · exact ih6 hdf x hx

theorem loopRun_ok (desc : FunctionalDescriptor) (hTs : 1 ≤ desc.transfer_size) :
    ∀ (fuel : Nat) (st : DownloadLoop) (buf : List Nat) (rd : Rd)
      (oracle : List GetStatusMessage) (evs : List Ev) (b : Bool),
      loopRun desc fuel st buf rd oracle = some (.ok evs) →
      st.eof = false → buf.length ≤ desc.transfer_size →
      st.protocol.isDfuse = b → (b = true → 2 ≤ st.block_num) →
      LoopOk desc b st.block_num buf rd evs := by
  intro fuel
  induction fuel with
  | zero =>
    intro st buf rd oracle evs b h hEof hBuf hpb hBn
    simp [loopRun] at h
  | succ fuel ih =>
    intro st buf rd oracle evs b h hEof hBuf hpb hBn
    rcases hst : st.protocol with _ | d
    · -- plain DFU: always the chunk arm
      have hnext : DownloadLoop.next desc st = .downloadChunk
          { end_pos := st.end_pos, copied_pos := st.copied_pos,
            block_num := st.block_num, protocol := st.protocol } := by
        simp [DownloadLoop.next, hEof, hst]
      exact chunk_arm desc hTs fuel ih st buf rd oracle evs b hnext h hBuf hpb hBn
    · have hbt : true = b := by rw [hst] at hpb; exact hpb
      subst hbt
      have h2 : 2 ≤ st.block_num := hBn rfl
      by_cases hE : d.erased_pos < st.end_pos
      · -- erase arm
        have hnext : DownloadLoop.next desc st = .erase
            { end_pos := st.end_pos, copied_pos := st.copied_pos,
              protocol := d, block_num := st.block_num } := by
          simp [DownloadLoop.next, hEof, hst, hE]
        simp only [loopRun, hnext] at h
        split at h
        · simp at h
        rename_i st' pair ev her
        split at h
        · simp at h
        · simp at h
        rename_i wevs oracle' hw
        rcases hr : loopRun desc fuel st' buf rd oracle' with _ | re <;>
          rw [hr] at h
        · simp [mapOk] at h
        rcases re with e | evs'
        · simp [mapOk] at h
        simp only [mapOk, Option.some.injEq, Except.ok.injEq] at h
        subst h
        simp only [ErasePage.erase] at her
        split at her
        · simp at her
        rename_i page_size rest hlay
        split at her
        · simp at her
        simp only [Except.ok.injEq, Prod.mk.injEq] at her
        obtain ⟨hst', hpair, hev⟩ := her
        obtain ⟨hwd, hwr⟩ := waitRun_ok (fuel + 1) pair.1 pair.2 0 oracle
          wevs oracle' hw
        have hst'eof : st'.eof = false := by rw [← hst']
        have hst'proto : st'.protocol.isDfuse = true := by rw [← hst']; rfl
        have hst'bn : st'.block_num = st.block_num := by rw [← hst']
        have hres := ih st' buf rd oracle' evs' true hr hst'eof hBuf hst'proto
          (fun _ => by rw [hst'bn]; exact h2)
        rw [hst'bn] at hres
        obtain ⟨ih1, ih2, ih3, ih4, ih5, ih6⟩ := hres
        have hsplit : dnloads ((ev :: wevs) ++ evs')
            = (0, 65 :: le32 d.erased_pos) :: dnloads evs' := by
          simp [← hev, hwd]
        have hrsplit : resetCount ((ev :: wevs) ++ evs') = resetCount evs' := by
          simp [← hev, hwr]
        refine ⟨?_, ?_, ?_, ?_, ?_, ?_⟩
        · rw [hsplit, List.filter_cons,
            if_neg (by simp [dataTransfer, isCmdPacket])]
          exact ih1
        · rw [hsplit, List.filter_cons, if_neg (by simp [chunkTransfer])]
          exact ih2
        · intro x hx
          rw [hsplit, List.filter_cons, if_neg (by simp [chunkTransfer])] at hx
          exact ih3 x hx
        · rw [hsplit, List.filter_cons, if_neg (by simp)]
          exact ih4
        · rw [hrsplit]
          exact ih5
        · intro _ x hx
          rw [hsplit] at hx
          rcases List.mem_cons.mp hx with hx | hx
          · subst hx
            simp
          · exact ih6 rfl x hx
      · by_cases hA : d.address_set
        · -- chunk arm under DfuSe
          have hnext : DownloadLoop.next desc st = .downloadChunk
              { end_pos := st.end_pos, copied_pos := st.copied_pos,
                block_num := st.block_num, protocol := st.protocol } := by
            simp [DownloadLoop.next, hEof, hst, hE, hA]
          exact chunk_arm desc hTs fuel ih st buf rd oracle evs true hnext h hBuf
            (by rw [hst]; rfl) hBn
        · -- set-address arm
          have hnext : DownloadLoop.next desc st = .setAddress
              { end_pos := st.end_pos, copied_pos := st.copied_pos,
                protocol := d, block_num := st.block_num } := by
            simp [DownloadLoop.next, hEof, hst, hE, hA]
          simp only [loopRun, hnext, SetAddress.set_address] at h
          split at h
          · simp at h
          · simp at h
          rename_i wevs oracle' hw
          obtain ⟨hwd, hwr⟩ := waitRun_ok (fuel + 1) State.dfuDnbusy
            State.dfuDnloadIdle 0 oracle wevs oracle' hw
          unfold mapOk at h
          split at h
          case _ evs' hr =>
            simp only [Option.some.injEq, Except.ok.injEq] at h
            subst h
            have hres := ih _ buf rd oracle' evs' true hr rfl hBuf rfl
              (fun _ => h2)
            obtain ⟨ih1, ih2, ih3, ih4, ih5, ih6⟩ := hres
            have hsplit : dnloads ((Ev.dnload 0 (33 :: le32 st.copied_pos) :: wevs)
                ++ evs') = (0, 33 :: le32 st.copied_pos) :: dnloads evs' := by
              simp [hwd]
            have hrsplit : resetCount ((Ev.dnload 0 (33 :: le32 st.copied_pos)
                :: wevs) ++ evs') = resetCount evs' := by
              simp [hwr]
            refine ⟨?_, ?_, ?_, ?_, ?_, ?_⟩
            · rw [hsplit, List.filter_cons,
                if_neg (by simp [dataTransfer, isCmdPacket])]
              exact ih1
            · rw [hsplit, List.filter_cons, if_neg (by simp [chunkTransfer])]
              exact ih2
            · intro x hx
              rw [hsplit, List.filter_cons,
                if_neg (by simp [chunkTransfer])] at hx
              exact ih3 x hx
            · rw [hsplit, List.filter_cons, if_neg (by simp)]
              exact ih4
            · rw [hrsplit]
              exact ih5
            · intro _ x hx
              rw [hsplit] at hx
              rcases List.mem_cons.mp hx with hx | hx
              · subst hx
                simp
              · exact ih6 rfl x hx
          case _ e hr => simp at h
          case _ hr => simp at h

theorem run_ok (desc : FunctionalDescriptor) (override_address : Option Nat)
    (proto : DfuProtocol) (length : Nat) (rd : Rd)
    (oracle : List GetStatusMessage) (fuel : Nat) (evs : List Ev)
    (hTs : 1 ≤ desc.transfer_size)
    (h : run desc override_address proto length rd oracle fuel = some (.ok evs)) :
    concatPayloads ((dnloads evs).filter (dataTransfer proto.isDfuse)) = rd.data ∧
    ((dnloads evs).filter (chunkTransfer proto.isDfuse)).map Prod.fst
      = List.range' (startBlock proto)
          ((dnloads evs).filter (chunkTransfer proto.isDfuse)).length ∧
    (∀ x ∈ (dnloads evs).filter (chunkTransfer proto.isDfuse),
      x.2.length ≤ desc.transfer_size) ∧
    ((dnloads evs).filter (fun x => x.2.isEmpty)).length
      = (if rd.data.isEmpty then 0 else 1) ∧
    resetCount evs = (if rd.data.isEmpty then 0
      else if !desc.manifestation_tolerant && !desc.will_detach then 1 else 0) ∧
    (proto.isDfuse = true → ∀ x ∈ dnloads evs, x.1 ≠ 1) := by
  rcases hfb : fillBuf [] desc.transfer_size rd with ⟨buffer, rd'⟩
  simp only [run, hfb] at h
  by_cases hbe : buffer.isEmpty
  · rw [if_pos hbe] at h
    simp only [Option.some.injEq, Except.ok.injEq] at h
    subst h
    have hdata : rd.data = [] :=
      (fillBuf_empty [] desc.transfer_size rd hTs
        (by rw [hfb]; exact List.isEmpty_iff.mp hbe)).2
    refine ⟨?_, ?_, ?_, ?_, ?_, ?_⟩ <;> simp [hdata, List.range']
  · rw [if_neg hbe] at h
    have hbuflen : buffer.length ≤ desc.transfer_size := by
      have := fillBuf_length [] desc.transfer_size rd (by simp)
      rw [hfb] at this
      exact this
    have hdata : rd.data ≠ [] := by
      intro hd
      rw [fillBuf_data_nil [] desc.transfer_size rd hd] at hfb
      cases hfb
      simp at hbe
    have hde : rd.data.isEmpty = false := by
      cases hx : rd.data
      · exact absurd hx hdata
      · rfl
    have hcons : buffer ++ rd'.data = rd.data := by
      have := fillBuf_conservation [] desc.transfer_size rd
      rw [hfb] at this
      simpa using this
    split at h
    · simp at h
    rename_i protocol end_pos hdl
    rcases oracle with _ | ⟨m1, oracle⟩
    · simp at h
    rcases oracle with _ | ⟨m2, oracle⟩
    · simp at h
    simp only [preRoll] at h
    split at h
    · simp at h
    rename_i dl hpr
    unfold mapOk at h
    split at h
    case _ evs' hr =>
      simp only [Option.some.injEq, Except.ok.injEq] at h
      subst h
      rw [Start.chain.eq_def] at hpr
      split at hpr
      case isTrue hidle =>
        simp only [Except.ok.injEq] at hpr
        subst hpr
        have hpre_dn : dnloads (Ev.getStatus ::
            (ClearStatus.chain m1 ++ [Ev.getStatus])) = [] := by
          by_cases hc : m1.state = State.dfuError <;>
            simp [ClearStatus.chain, hc]
        have hpre_rc : resetCount (Ev.getStatus ::
            (ClearStatus.chain m1 ++ [Ev.getStatus])) = 0 := by
          by_cases hc : m1.state = State.dfuError <;>
            simp [ClearStatus.chain, hc]
        rcases proto with _ | ⟨addr, layout⟩
        · simp only [DfuSansIo.download, Except.ok.injEq, Prod.mk.injEq] at hdl
          obtain ⟨hp, he⟩ := hdl
          subst hp
          have hres := loopRun_ok desc hTs fuel _ buffer rd' oracle evs' false
            hr rfl hbuflen rfl (by simp)
          obtain ⟨ih1, ih2, ih3, ih4, ih5, ih6⟩ := hres
          refine ⟨?_, ?_, ?_, ?_, ?_, ?_⟩
          · simp only [dnloads_append, hpre_dn, List.nil_append,
              DfuProtocol.isDfuse]
            rw [ih1, hcons]
          · simp only [dnloads_append, hpre_dn, List.nil_append,
              DfuProtocol.isDfuse, startBlock]
            exact ih2
          · intro x hx
            simp only [dnloads_append, hpre_dn, List.nil_append,
              DfuProtocol.isDfuse] at hx
            exact ih3 x hx
          · simp only [dnloads_append, hpre_dn, List.nil_append, hde,
              Bool.false_eq_true, if_false]
            exact ih4
          · simp only [resetCount_append, hpre_rc, Nat.zero_add, hde,
              Bool.false_eq_true, if_false]
            exact ih5
          · intro hdf
            simp [DfuProtocol.isDfuse] at hdf
        · simp only [DfuSansIo.download] at hdl
          split at hdl
          · simp at hdl
          simp only [Except.ok.injEq, Prod.mk.injEq] at hdl
          obtain ⟨hp, he⟩ := hdl
          subst hp
          have hres := loopRun_ok desc hTs fuel _ buffer rd' oracle evs' true
            hr rfl hbuflen rfl (by intro _; exact le_refl 2)
          obtain ⟨ih1, ih2, ih3, ih4, ih5, ih6⟩ := hres
          refine ⟨?_, ?_, ?_, ?_, ?_, ?_⟩
          · simp only [dnloads_append, hpre_dn, List.nil_append,
              DfuProtocol.isDfuse]
            rw [ih1, hcons]
          · simp only [dnloads_append, hpre_dn, List.nil_append,
              DfuProtocol.isDfuse, startBlock]
            exact ih2
          · intro x hx
            simp only [dnloads_append, hpre_dn, List.nil_append,
              DfuProtocol.isDfuse] at hx
            exact ih3 x hx
          · simp only [dnloads_append, hpre_dn, List.nil_append, hde,
              Bool.false_eq_true, if_false]
            exact ih4
          · simp only [resetCount_append, hpre_rc, Nat.zero_add, hde,
              Bool.false_eq_true, if_false]
            exact ih5
          · intro _ x hx
            simp only [dnloads_append, hpre_dn, List.nil_append] at hx
            exact ih6 rfl x hx
      case isFalse => simp at hpr
    case _ e hr => simp at h
    case _ hr => simp at h

/-- C4 (confirmed): a download begins with exactly GETSTATUS; then a
CLRSTATUS iff that reply's state is DfuError (no transfer otherwise at that
stage); then a second GETSTATUS whose reply must report DfuIdle — every
other state fails `InvalidState{got, expected: DfuIdle}` — and only on
DfuIdle does the chunk loop start, with block 0 and position 0 for plain
DFU and block 2 and position = address for DfuSe. -/
theorem c4_pre_roll (protocol : ProtocolData) (end_pos : Nat)
    (m1 m2 : GetStatusMessage) :
    preRoll protocol end_pos m1 m2 = preRollClaim protocol end_pos m1 m2 := by
  unfold preRoll preRollClaim ClearStatus.chain Start.chain
  by_cases h1 : m1.state = State.dfuError <;>
    by_cases h2 : m2.state = State.dfuIdle <;>
      rcases protocol with _ | d <;> simp [h1, h2]

/-- C5 (code_bug): the snapshot's `WaitState` (src/get_status.rs) cannot
fail at all: on a reply whose state is neither the wait's target nor
DfuManifest it records the state and polls again, where the specification
(and the `WaitState::new` call sites in src/download.rs, which pass an
intermediate state this `WaitState` does not even accept) require failing
with `InvalidState{got, expected: intermediate}`.  Evaluated at a wait for
DfuDnloadIdle receiving DfuError. -/
theorem c5_wait_state_polls_again :
    WaitState.chain (WaitState.new State.dfuDnloadIdle)
        { status := Status.ok, poll_timeout := 10, state := State.dfuError,
          index := 0 }
      = { state := State.dfuDnloadIdle, end_ := false, poll_timeout := 10,
          in_manifest := false }
    ∧ WaitState.next descN
        (WaitState.chain (WaitState.new State.dfuDnloadIdle)
          { status := Status.ok, poll_timeout := 10, state := State.dfuError,
            index := 0 })
      = WaitStep.wait 10 := by
  exact ⟨rfl, rfl⟩

/-- C6 (code_bug): the snapshot's `GetStatusRecv::chain` delivers byte 4
decoded as-is and never applies `State::for_status` (which is defined in
src/lib.rs but unused): a reply with state byte 6 is delivered as
DfuManifestSync, while the claim requires the delivered state to be
`for_status`-mapped, i.e. DfuManifest. -/
theorem c6_for_status_not_applied :
    getStatusRecvChain [0, 0, 0, 0, 6, 0]
      = .ok { status := Status.ok, poll_timeout := 0,
              state := State.dfuManifestSync, index := 0 }
    ∧ State.for_status State.dfuManifestSync = State.dfuManifest
    ∧ State.dfuManifestSync ≠ State.dfuManifest := by
  refine ⟨rfl, rfl, by decide⟩

/-- C7 (confirmed): the erase step fails NoSpaceLeft on an empty layout
cursor; otherwise, with head page `p`, it fails EraseLimitReached when
`erased_pos + p` overflows u32, and otherwise emits DNLOAD(wValue 0,
`{0x41, LE32(erased_pos)}`) — the pre-increment position — resuming with
`erased_pos + p`, the tail of the cursor, and `copied_pos`, `block_num`,
`end_pos` unchanged. -/
theorem c7_erase_step (c : ErasePage) : ErasePage.erase c = eraseClaim c := by
  unfold ErasePage.erase eraseClaim
  rcases hl : c.protocol.memory_layout with _ | ⟨p, rest⟩
  · simp
  · by_cases hof : U32MAX < c.protocol.erased_pos + p
    · simp [hof, Nat.not_le.mpr hof]
    · simp [hof, Nat.not_lt.mp hof]

/-- C8 (confirmed): the chunk step fails BufferTooBig iff more than
`u32::MAX` bytes are handed in; otherwise it emits DNLOAD(wValue =
block_num) carrying the first `min(len, transfer_size)` bytes, advances
`copied_pos` by that length (MaximumTransferSizeExceeded on u32 overflow)
and `block_num` by one (MaximumChunksExceeded on u16 overflow), sets `eof`
iff the input is empty, and selects the wait pair (DfuManifest, DfuIdle) /
(DfuManifest, DfuManifest) / (DfuDnbusy, DfuDnloadIdle) as claimed. -/
theorem c8_chunk_step (desc : FunctionalDescriptor) (c : DownloadChunk)
    (bytes : List Nat) :
    DownloadChunk.download desc c bytes = downloadChunkClaim desc c bytes := by
  unfold DownloadChunk.download downloadChunkClaim
  by_cases h1 : bytes.length ≤ U32MAX
  · rw [if_neg (by omega), if_pos h1]
    by_cases h2 : c.copied_pos + min bytes.length desc.transfer_size ≤ U32MAX
    · rw [if_neg (by omega), if_pos h2]
      by_cases h3 : c.block_num + 1 ≤ U16MAX
      · rw [if_neg (by omega), if_pos h3]
        by_cases he : bytes.isEmpty <;>
          by_cases hm : desc.manifestation_tolerant <;> simp [he, hm]
      · rw [if_pos (by omega), if_neg h3]
    · rw [if_pos (by omega), if_neg h2]
  · rw [if_pos (by omega), if_neg h1]

/-- C10 (confirmed): when the stream yields no byte on the first fill, the
download entry points (the synchronous and the structurally identical
asynchronous shell, both represented by `run`) return success immediately,
with an empty trace: no control transfer, no sleep, no USB reset. -/
theorem c10_empty_stream (desc : FunctionalDescriptor)
    (override_address : Option Nat) (proto : DfuProtocol) (length : Nat)
    (sched : List Nat) (oracle : List GetStatusMessage) (fuel : Nat) :
    run desc override_address proto length { data := [], sched := sched }
      oracle fuel = some (.ok []) := by
  have h := fillBuf_data_nil [] desc.transfer_size
    { data := [], sched := sched } rfl
  simp [run, h]

/-- C1 counterexample: the claim's syntactic exclusion — wValue 0 with a
0x21/0x41 first byte — also fires on a *plain DFU* data chunk.  In the
concrete run of `descW` over the one-byte firmware 0x41, block 0 carries
the firmware byte 0x41, the filter drops it, and the claimed concatenation
is empty instead of the firmware. -/
theorem c1_counterexample :
    run descW none DfuProtocol.dfu 1 rdW oracleW 3 = some (.ok trW)
    ∧ rdW.data = [65]
    ∧ concatPayloads ((dnloads trW).filter
        (fun x => !x.2.isEmpty && !(isCmdPacket x))) ≠ [65] := by
  refine ⟨rfl, rfl, by decide⟩

/-- C1 (amended): for every terminating download run (any stream and read
schedule, any flags, both protocols, `transfer_size ≥ 1`), the
concatenation of the payloads of all non-empty DNLOAD data transfers —
excluding, in DfuSe runs only, the command packets (wValue 0 with a
0x21 / 0x41 first byte) — equals the input firmware byte-for-byte. -/
theorem c1_byte_fidelity (desc : FunctionalDescriptor)
    (override_address : Option Nat) (proto : DfuProtocol) (length : Nat)
    (rd : Rd) (oracle : List GetStatusMessage) (fuel : Nat) (evs : List Ev)
    (hTs : 1 ≤ desc.transfer_size)
    (h : run desc override_address proto length rd oracle fuel
      = some (.ok evs)) :
    concatPayloads ((dnloads evs).filter (dataTransfer proto.isDfuse))
      = rd.data :=
  (run_ok desc override_address proto length rd oracle fuel evs hTs h).1

theorem c1_byte_fidelity_witness :
    (1 ≤ descW.transfer_size
      ∧ run descW none DfuProtocol.dfu 1 rdW oracleW 3 = some (.ok trW))
    ∧ concatPayloads ((dnloads trW).filter
        (dataTransfer DfuProtocol.dfu.isDfuse)) = rdW.data :=
  ⟨⟨by decide, rfl⟩,
   c1_byte_fidelity descW none DfuProtocol.dfu 1 rdW oracleW 3 trW
     (by decide) rfl⟩

/-- C2 (confirmed): in every terminating run the wValues of the data-chunk
DNLOADs (under DfuSe: the transfers with non-zero wValue; commands use
wValue 0) form the consecutive sequence starting at 0 for plain DFU and 2
for DfuSe; in DfuSe runs wValue 1 never occurs on any DNLOAD; and the
erase and set-address steps leave `block_num` unchanged. -/
theorem c2_block_numbering (desc : FunctionalDescriptor)
    (override_address : Option Nat) (proto : DfuProtocol) (length : Nat)
    (rd : Rd) (oracle : List GetStatusMessage) (fuel : Nat) (evs : List Ev)
    (hTs : 1 ≤ desc.transfer_size)
    (h : run desc override_address proto length rd oracle fuel
      = some (.ok evs)) :
    ((dnloads evs).filter (chunkTransfer proto.isDfuse)).map Prod.fst
      = List.range' (startBlock proto)
          ((dnloads evs).filter (chunkTransfer proto.isDfuse)).length
    ∧ (proto.isDfuse = true → ∀ x ∈ dnloads evs, x.1 ≠ 1)
    ∧ (∀ (c : ErasePage) (st' : DownloadLoop) (pr : State × State) (ev : Ev),
        ErasePage.erase c = .ok (st', pr, ev) → st'.block_num = c.block_num)
    ∧ (∀ c : SetAddress,
        (SetAddress.set_address c).1.block_num = c.block_num) := by
  obtain ⟨_, h2, _, _, _, h6⟩ :=
    run_ok desc override_address proto length rd oracle fuel evs hTs h
  refine ⟨h2, h6, ?_, ?_⟩
  · intro c st' pr ev her
    simp only [ErasePage.erase] at her
    split at her
    · simp at her
    split at her
    · simp at her
    simp only [Except.ok.injEq, Prod.mk.injEq] at her
    obtain ⟨hst', _, _⟩ := her
    rw [← hst']
  · intro c
    rfl

theorem c2_block_numbering_witness :
    (1 ≤ descW.transfer_size
      ∧ run descW none DfuProtocol.dfu 1 rdW oracleW 3 = some (.ok trW))
    ∧ (((dnloads trW).filter (chunkTransfer DfuProtocol.dfu.isDfuse)).map
          Prod.fst
        = List.range' (startBlock DfuProtocol.dfu)
            ((dnloads trW).filter (chunkTransfer DfuProtocol.dfu.isDfuse)).length
      ∧ (DfuProtocol.dfu.isDfuse = true → ∀ x ∈ dnloads trW, x.1 ≠ 1)
      ∧ (∀ (c : ErasePage) (st' : DownloadLoop) (pr : State × State) (ev : Ev),
          ErasePage.erase c = .ok (st', pr, ev) → st'.block_num = c.block_num)
      ∧ (∀ c : SetAddress,
          (SetAddress.set_address c).1.block_num = c.block_num)) :=
  ⟨⟨by decide, rfl⟩,
   c2_block_numbering descW none DfuProtocol.dfu 1 rdW oracleW 3 trW
     (by decide) rfl⟩

/-- C3 counterexample: a download invocation whose stream yields zero bytes
on the first read terminates successfully with an empty trace — no
zero-length DNLOAD is ever sent, refuting "exactly one zero-length DNLOAD
is sent" for every invocation. -/
theorem c3_counterexample :
    run descN none DfuProtocol.dfu 0 { data := [], sched := [] } [] 1
      = some (.ok [])
    ∧ ((dnloads ([] : List Ev)).filter (fun x => x.2.isEmpty)).length = 0 :=
  ⟨rfl, rfl⟩

/-- C3 (amended): in every terminating run every DNLOAD data (chunk)
payload has length ≤ transfer_size, and the number of zero-length DNLOADs
is exactly one when the stream is non-empty and zero when the stream is
empty (the entry point then returns before any transfer). -/
theorem c3_transfer_bound (desc : FunctionalDescriptor)
    (override_address : Option Nat) (proto : DfuProtocol) (length : Nat)
    (rd : Rd) (oracle : List GetStatusMessage) (fuel : Nat) (evs : List Ev)
    (hTs : 1 ≤ desc.transfer_size)
    (h : run desc override_address proto length rd oracle fuel
      = some (.ok evs)) :
    (∀ x ∈ (dnloads evs).filter (chunkTransfer proto.isDfuse),
      x.2.length ≤ desc.transfer_size)
    ∧ ((dnloads evs).filter (fun x => x.2.isEmpty)).length
        = (if rd.data.isEmpty then 0 else 1) := by
  obtain ⟨_, _, h3, h4, _, _⟩ :=
    run_ok desc override_address proto length rd oracle fuel evs hTs h
  exact ⟨h3, h4⟩

theorem c3_transfer_bound_witness :
    (1 ≤ descW.transfer_size
      ∧ run descW none DfuProtocol.dfu 1 rdW oracleW 3 = some (.ok trW))
    ∧ ((∀ x ∈ (dnloads trW).filter (chunkTransfer DfuProtocol.dfu.isDfuse),
          x.2.length ≤ descW.transfer_size)
      ∧ ((dnloads trW).filter (fun x => x.2.isEmpty)).length
          = (if rdW.data.isEmpty then 0 else 1)) :=
  ⟨⟨by decide, rfl⟩,
   c3_transfer_bound descW none DfuProtocol.dfu 1 rdW oracleW 3 trW
     (by decide) rfl⟩

/-- C9 counterexample: with `manifestation_tolerant = false` and
`will_detach = false`, the empty-stream download terminates successfully
without issuing any USB reset, refuting the "if" direction of the claimed
equivalence for that run. -/
theorem c9_counterexample :
    descN.manifestation_tolerant = false ∧ descN.will_detach = false
    ∧ run descN none DfuProtocol.dfu 0 { data := [], sched := [] } [] 1
        = some (.ok [])
    ∧ resetCount [] = 0 :=
  ⟨rfl, rfl, rfl, rfl⟩

/-- C9 (amended): in every terminating run whose stream yields at least one
byte, a USB reset is issued iff both `manifestation_tolerant` and
`will_detach` are false (and then exactly once); an empty-stream run
terminates with no reset. -/
theorem c9_reset_discipline (desc : FunctionalDescriptor)
    (override_address : Option Nat) (proto : DfuProtocol) (length : Nat)
    (rd : Rd) (oracle : List GetStatusMessage) (fuel : Nat) (evs : List Ev)
    (hTs : 1 ≤ desc.transfer_size)
    (h : run desc override_address proto length rd oracle fuel
      = some (.ok evs)) :
    resetCount evs = (if rd.data.isEmpty then 0
      else if !desc.manifestation_tolerant && !desc.will_detach then 1
      else 0) :=
  (run_ok desc override_address proto length rd oracle fuel evs
    hTs h).2.2.2.2.1

theorem c9_reset_discipline_witness :
    (1 ≤ descN.transfer_size
      ∧ run descN none DfuProtocol.dfu 1 rdW oracleN 3 = some (.ok trN))
    ∧ resetCount trN = (if rdW.data.isEmpty then 0
        else if !descN.manifestation_tolerant && !descN.will_detach then 1
        else 0) :=
  ⟨⟨by decide, rfl⟩,
   c9_reset_discipline descN none DfuProtocol.dfu 1 rdW oracleN 3 trN
     (by decide) rfl⟩

end DfuCore